import Mathlib

/-!
Verification of `matlab_readme_updater.py`.

Strings are embedded as `List Char` (Python `str` is a sequence of code
points; `Char.toNat` is the code point).  File-system effects are passed
explicitly: the directory listing is an `Except`-value (`Except.error`
models an exception raised by `os.listdir`), a project README is an
optional `Except`-value over its list of lines (`none` models
`os.path.exists` returning false, `Except.error` a raised read error),
and the root `README.md` is an optional content (`none` models a missing
file, i.e. `FileNotFoundError`).
-/

/-- `START_MARKER = "<!--START_PROJECTS_LIST-->"` from the configuration block. -/
def START_MARKER : List Char := "<!--START_PROJECTS_LIST-->".data

/-- `END_MARKER = "<!--END_PROJECTS_LIST-->"` from the configuration block. -/
def END_MARKER : List Char := "<!--END_PROJECTS_LIST-->".data

/-- `IGNORE_LIST = ['.git', '.github', 'assets']` from the configuration block. -/
def IGNORE_LIST : List (List Char) := [".git".data, ".github".data, "assets".data]

/-- One entry of the current working directory: its name and whether
`os.path.isdir` holds for it. -/
structure DirEntry where
  name : List Char
  isDir : Bool
deriving DecidableEq

/-- Python string comparison `a <= b`: lexicographic on code points.
`list.sort()` sorts by this order. -/
def lexLe : List Char → List Char → Bool
  | [], _ => true
  | _ :: _, [] => false
  | a :: as, b :: bs =>
    if a.toNat < b.toNat then true
    else if b.toNat < a.toNat then false
    else lexLe as bs

instance lexRelDec : DecidableRel (fun a b : List Char => lexLe a b = true) :=
  fun a b => instDecidableEqBool (lexLe a b) true

/-- `get_project_folders`: filter the directory listing for directories not
in `IGNORE_LIST`, then `project_folders.sort()`.  `Except.error` models the
`except Exception` branch, which returns `[]`. -/
def get_project_folders (listing : Except Unit (List DirEntry)) : List (List Char) :=
  match listing with
  | Except.error _ => []
  | Except.ok all_items =>
    let project_folders :=
      (all_items.filter
        (fun item => item.isDir && !(IGNORE_LIST.contains item.name))).map DirEntry.name
    List.insertionSort (fun a b => lexLe a b = true) project_folders

/-- The characters stripped by Python `str.strip()` (ASCII whitespace;
the folder READMEs are text files, so this is the relevant set). -/
def isPySpace (c : Char) : Bool :=
  c = ' ' || c = '\t' || c = '\n' || c = '\x0b' || c = '\x0c' || c = '\r'

/-- Python `line.strip()`: remove whitespace from both ends. -/
def pyStrip (s : List Char) : List Char :=
  ((s.dropWhile isPySpace).reverse.dropWhile isPySpace).reverse

/-- Helper for Python `str.title()`: the boolean records whether the
previous character was alphabetic. -/
def pyTitleAux : Bool → List Char → List Char
  | _, [] => []
  | prevAlpha, c :: rest =>
    if c.isAlpha then
      (if prevAlpha then c.toLower else c.toUpper) :: pyTitleAux true rest
    else
      c :: pyTitleAux false rest

/-- Python `str.title()`: the first letter of every maximal run of letters
is uppercased, the following letters are lowercased (ASCII semantics). -/
def pyTitle (s : List Char) : List Char := pyTitleAux false s

/-- Python `str.replace(a, b)` for a single-character pattern: replace
every occurrence of the character `a` by `b`. -/
def replaceChar (a b : Char) (s : List Char) : List Char :=
  s.map (fun c => if c = a then b else c)

/-- A folder README, when it exists: either a raised read error or the
list of the file's lines, in order. -/
def ProjectFS : Type := List Char → Option (Except Unit (List (List Char)))

/-- The loop body of `format_projects_as_markdown`: scan the lines in
order, return the stripped form of the first line that is non-empty after
stripping and does not start with `#`; `[]` when no line qualifies. -/
def findDescription : List (List Char) → List Char
  | [] => []
  | line :: rest =>
    if !(pyStrip line).isEmpty && !(List.isPrefixOf ['#'] (pyStrip line)) then
      pyStrip line
    else
      findDescription rest

/-- The description lookup for one folder: `""` when `<folder>/README.md`
is absent, a read error occurs, or no qualifying line exists. -/
def get_description (fs : ProjectFS) (folder : List Char) : List Char :=
  match fs folder with
  | none => []
  | some (Except.error _) => []
  | some (Except.ok lines) => findDescription lines

/-- One bullet line of the generated Markdown list, as built in the loop
of `format_projects_as_markdown`. -/
def projectLine (fs : ProjectFS) (folder : List Char) : List Char :=
  let project_name := pyTitle (replaceChar '-' ' ' (replaceChar '_' ' ' folder))
  let project_url := "./".data ++ folder ++ "/".data
  let description := get_description fs folder
  if description ≠ [] then
    "* **[".data ++ project_name ++ "](".data ++ project_url ++ ")**: ".data ++ description
  else
    "* **[".data ++ project_name ++ "](".data ++ project_url ++ ")**".data

/-- `format_projects_as_markdown`: the literal no-projects sentence for an
empty list, otherwise the bullet lines joined by `"\n".join`. -/
def format_projects_as_markdown (fs : ProjectFS) (folders : List (List Char)) : List Char :=
  if folders.isEmpty then
    "No projects found in this repository yet.".data
  else
    List.intercalate ['\n'] (folders.map (projectLine fs))

/-- Python `content.find(pat)`: index of the first occurrence of `pat` in
`s`, `none` instead of `-1` when there is no occurrence. -/
def strFind (s pat : List Char) : Option Nat :=
  match s with
  | [] => if pat.isEmpty then some 0 else none
  | c :: rest =>
    if pat.isPrefixOf (c :: rest) then some 0
    else (strFind rest pat).map (· + 1)

/-- The pure core of `update_readme`: locate both markers in the current
content and splice the generated block between them; `none` models the
`Markers not found` early return (no write). -/
def update_readme_content (project_list_md readme_content : List Char) : Option (List Char) :=
  match strFind readme_content START_MARKER, strFind readme_content END_MARKER with
  | some start_index, some end_index =>
    some (readme_content.take (start_index + START_MARKER.length)
          ++ "\n\n".data ++ project_list_md ++ "\n\n".data
          ++ readme_content.drop end_index)
  | _, _ => none

/-- `update_readme` at the file-system level: argument and result are the
state of `README.md` (`none` = absent).  A missing file raises
`FileNotFoundError`, which is caught: no write happens.  Missing markers
also cause no write.  This model covers only the caught error path; the
source catches nothing but `FileNotFoundError`, and `update_readme_ex`
below makes the uncaught error paths visible. -/
def update_readme (project_list_md : List Char) (readme : Option (List Char)) :
    Option (List Char) :=
  match readme with
  | none => none
  | some readme_content =>
    some ((update_readme_content project_list_md readme_content).getD readme_content)

/-- The state of the root `README.md` as `update_readme` opens it:
`absent` — `open` raises `FileNotFoundError`, the only exception the
source handles; `unreadable` — `open`/`read` raises any other exception
(e.g. `PermissionError`, or `UnicodeDecodeError` from decoding), which
the source does not catch; `readable` — the read succeeds with the given
content. -/
inductive ReadmeFile where
  | absent
  | unreadable
  | readable (content : List Char)
deriving DecidableEq

/-- `update_readme` with exceptions made visible: `Except.error ()` is an
exception propagating to the caller, `Except.ok` the final file state
(`none` = still absent).  Only `FileNotFoundError` (the `absent` case) is
caught; a read error propagates, and `writeFails` models the final
`f.write` call raising — also uncaught. -/
def update_readme_ex (project_list_md : List Char) (readme : ReadmeFile)
    (writeFails : Bool) : Except Unit (Option (List Char)) :=
  match readme with
  | ReadmeFile.absent => Except.ok none
  | ReadmeFile.unreadable => Except.error ()
  | ReadmeFile.readable readme_content =>
    match update_readme_content project_list_md readme_content with
    | none => Except.ok (some readme_content)
    | some new_readme =>
      if writeFails then Except.error () else Except.ok (some new_readme)

/-- The display name as the spec words it: `_` and `-` replaced by spaces
in a single pass, then title-cased.  Compared against the source's two
successive `replace` calls. -/
def specDisplayName (folder : List Char) : List Char :=
  pyTitle (folder.map (fun c => if c = '_' || c = '-' then ' ' else c))

/-- One bullet line as the spec words it:
`* **[<DisplayName>](<link>)**: <description>` when a description exists,
else `* **[<DisplayName>](<link>)**`, with link `./<folder>/`. -/
def specProjectLine (fs : ProjectFS) (folder : List Char) : List Char :=
  let link := "./".data ++ folder ++ "/".data
  if get_description fs folder = [] then
    "* **[".data ++ specDisplayName folder ++ "](".data ++ link ++ ")**".data
  else
    "* **[".data ++ specDisplayName folder ++ "](".data ++ link ++ ")**: ".data
      ++ get_description fs folder

/-! ### Helper lemmas about substring search -/

/-- `occursAt pat s i`: `pat` occurs as a substring of `s` at position `i`. -/
def occursAt (pat s : List Char) (i : Nat) : Prop :=
  ∃ t, s.drop i = pat ++ t

lemma isPrefixOf_iff_exists (p s : List Char) :
    p.isPrefixOf s = true ↔ ∃ t, s = p ++ t := by
  induction p generalizing s with
  | nil => simp [List.isPrefixOf]
  | cons a p ih =>
    cases s with
    | nil => simp [List.isPrefixOf]
    | cons b s =>
      simp only [List.isPrefixOf, Bool.and_eq_true, beq_iff_eq, ih, List.cons_append,
        List.cons.injEq]
      constructor
      · rintro ⟨hab, t, ht⟩
        exact ⟨t, hab.symm, ht⟩
      · rintro ⟨t, hab, ht⟩
        exact ⟨hab.symm, t, ht⟩

lemma occursAt_zero_iff (pat s : List Char) :
    occursAt pat s 0 ↔ pat.isPrefixOf s = true := by
  rw [isPrefixOf_iff_exists]
  simp [occursAt]

lemma occursAt_succ_iff (pat : List Char) (c : Char) (s : List Char) (i : Nat) :
    occursAt pat (c :: s) (i + 1) ↔ occursAt pat s i := by
  simp [occursAt]

lemma strFind_some (s pat : List Char) (i : Nat) (h : strFind s pat = some i) :
    occursAt pat s i ∧ ∀ j, j < i → ¬ occursAt pat s j := by
  induction s generalizing i with
  | nil =>
    by_cases hp : pat.isEmpty
    · simp only [strFind, hp, if_pos, Option.some.injEq] at h
      subst h
      refine ⟨⟨[], by simp [List.isEmpty_iff.mp hp]⟩, ?_⟩
      intro j hj
      omega
    · simp [strFind, hp] at h
  | cons c rest ih =>
    by_cases hp : pat.isPrefixOf (c :: rest) = true
    · simp only [strFind, hp, if_pos, Option.some.injEq] at h
      subst h
      refine ⟨(occursAt_zero_iff pat (c :: rest)).mpr hp, ?_⟩
      intro j hj
      omega
    · have hstep : strFind (c :: rest) pat = (strFind rest pat).map (· + 1) := by
        simp [strFind, hp]
      rw [hstep, Option.map_eq_some'] at h
      obtain ⟨i', hi', rfl⟩ := h
      obtain ⟨ho, hmin⟩ := ih i' hi'
      refine ⟨(occursAt_succ_iff pat c rest i').mpr ho, ?_⟩
      intro j hj hocc
      cases j with
      | zero => exact hp ((occursAt_zero_iff pat (c :: rest)).mp hocc)
      | succ j' => exact hmin j' (by omega) ((occursAt_succ_iff pat c rest j').mp hocc)

lemma strFind_le_of_occursAt (s pat : List Char) (i : Nat) (h : occursAt pat s i) :
    ∃ k, strFind s pat = some k ∧ k ≤ i := by
  induction s generalizing i with
  | nil =>
    obtain ⟨t, ht⟩ := h
    simp only [List.drop_nil] at ht
    have hpat : pat = [] := (List.append_eq_nil.mp ht.symm).1
    exact ⟨0, by simp [strFind, hpat, List.isEmpty_iff], Nat.zero_le i⟩
  | cons c rest ih =>
    by_cases hp : pat.isPrefixOf (c :: rest) = true
    · exact ⟨0, by simp [strFind, hp], Nat.zero_le i⟩
    · cases i with
      | zero => exact absurd ((occursAt_zero_iff pat (c :: rest)).mp h) hp
      | succ i' =>
        obtain ⟨k', hk', hle⟩ := ih i' ((occursAt_succ_iff pat c rest i').mp h)
        exact ⟨k' + 1, by simp [strFind, hp, hk'], by omega⟩

lemma strFind_eq_some_iff (s pat : List Char) (p : Nat) :
    strFind s pat = some p ↔ occursAt pat s p ∧ ∀ j, j < p → ¬ occursAt pat s j := by
  constructor
  · exact strFind_some s pat p
  · rintro ⟨ho, hmin⟩
    obtain ⟨k, hk, hle⟩ := strFind_le_of_occursAt s pat p ho
    obtain ⟨hko, -⟩ := strFind_some s pat k hk
    rcases Nat.lt_or_ge k p with hlt | hge
    · exact absurd hko (hmin k hlt)
    · have : k = p := by omega
      rw [← this]
      exact hk

lemma occursAt_bound (pat c : List Char) (i : Nat) (hne : pat ≠ [])
    (h : occursAt pat c i) : i + pat.length ≤ c.length := by
  obtain ⟨t, ht⟩ := h
  have hl := congrArg List.length ht
  simp only [List.length_drop, List.length_append] at hl
  by_cases hic : i ≤ c.length
  · have hpat : pat.length ≠ 0 := fun h0 => hne (List.length_eq_zero.mp h0)
    omega
  · exfalso
    have : c.drop i = [] := List.drop_eq_nil_of_le (by omega)
    rw [this] at ht
    exact hne (List.append_eq_nil.mp ht.symm).1

lemma occursAt_mono_append (pat u v : List Char) (j : Nat) (h : occursAt pat u j) :
    occursAt pat (u ++ v) j := by
  obtain ⟨t, ht⟩ := h
  by_cases hj : j ≤ u.length
  · refine ⟨t ++ v, ?_⟩
    rw [List.drop_append_eq_append_drop, ht, Nat.sub_eq_zero_of_le hj]
    simp
  · have hnil : u.drop j = [] := List.drop_eq_nil_of_le (by omega)
    rw [hnil] at ht
    have hpat : pat = [] := (List.append_eq_nil.mp ht.symm).1
    exact ⟨(u ++ v).drop j, by simp [hpat]⟩

lemma occursAt_shift (pat u v : List Char) (j : Nat) (h : occursAt pat v j) :
    occursAt pat (u ++ v) (u.length + j) := by
  obtain ⟨t, ht⟩ := h
  refine ⟨t, ?_⟩
  rw [List.drop_append_eq_append_drop,
    List.drop_eq_nil_of_le (show u.length ≤ u.length + j by omega)]
  simpa using ht

lemma occursAt_unshift (pat u v : List Char) (j : Nat)
    (h : occursAt pat (u ++ v) (u.length + j)) : occursAt pat v j := by
  obtain ⟨t, ht⟩ := h
  rw [List.drop_append_eq_append_drop,
    List.drop_eq_nil_of_le (show u.length ≤ u.length + j by omega)] at ht
  simp only [List.nil_append, Nat.add_sub_cancel_left] at ht
  exact ⟨t, ht⟩

lemma occursAt_left_of_fit (pat u v : List Char) (j : Nat)
    (hfit : j + pat.length ≤ u.length) (h : occursAt pat (u ++ v) j) :
    occursAt pat u j := by
  obtain ⟨t, ht⟩ := h
  rw [List.drop_append_eq_append_drop, Nat.sub_eq_zero_of_le (by omega), List.drop_zero] at ht
  have e1 : (u.drop j ++ v).take pat.length = pat := by rw [ht, List.take_left' rfl]
  rw [List.take_append_eq_append_take] at e1
  have hn : pat.length - (u.drop j).length = 0 := by
    simp only [List.length_drop]
    omega
  rw [hn, List.take_zero, List.append_nil] at e1
  refine ⟨(u.drop j).drop pat.length, ?_⟩
  have e2 := List.take_append_drop pat.length (u.drop j)
  rw [e1] at e2
  exact e2.symm

lemma take_of_occursAt (c pat : List Char) (i : Nat) (h : occursAt pat c i) :
    c.take (i + pat.length) = c.take i ++ pat := by
  obtain ⟨t, ht⟩ := h
  rw [List.take_add, ht, List.take_left' rfl]

lemma strFind_eq_none_iff (s pat : List Char) :
    strFind s pat = none ↔ ∀ j, ¬ occursAt pat s j := by
  constructor
  · intro h j hocc
    obtain ⟨k, hk, -⟩ := strFind_le_of_occursAt s pat j hocc
    rw [h] at hk
    exact Option.noConfusion hk
  · intro h
    cases hf : strFind s pat with
    | none => rfl
    | some k => exact absurd (strFind_some s pat k hf).1 (h k)

lemma isSuffixOf_iff_exists (p s : List Char) :
    p.isSuffixOf s = true ↔ ∃ t, s = t ++ p := by
  rw [List.isSuffixOf, isPrefixOf_iff_exists]
  constructor
  · rintro ⟨t, ht⟩
    refine ⟨t.reverse, ?_⟩
    have hr := congrArg List.reverse ht
    simpa using hr
  · rintro ⟨t, rfl⟩
    exact ⟨t.reverse, by simp⟩

/-! ### Theorems about the claims -/

/-- C1: when both markers are found, the new content is the original text up
to and including the first occurrence of the start marker, two newlines, the
generated block, two newlines, then the original text from the first
occurrence of the end marker to the end. -/
theorem update_readme_content_splice (B c : List Char) (si ei : Nat)
    (hs : strFind c START_MARKER = some si) (he : strFind c END_MARKER = some ei) :
    update_readme_content B c =
      some (c.take si ++ START_MARKER ++ "\n\n".data ++ B ++ "\n\n".data ++ c.drop ei)
    ∧ occursAt START_MARKER c si ∧ (∀ j, j < si → ¬ occursAt START_MARKER c j)
    ∧ occursAt END_MARKER c ei ∧ (∀ j, j < ei → ¬ occursAt END_MARKER c j) := by
  obtain ⟨hos, hmins⟩ := strFind_some c START_MARKER si hs
  obtain ⟨hoe, hmine⟩ := strFind_some c END_MARKER ei he
  refine ⟨?_, hos, hmins, hoe, hmine⟩
  have htk := take_of_occursAt c START_MARKER si hos
  simp [update_readme_content, hs, he, htk, List.append_assoc]

/-- C1 witness: a concrete README with old content between the markers. -/
theorem update_readme_content_splice_witness :
    strFind "<!--START_PROJECTS_LIST-->old<!--END_PROJECTS_LIST-->".data START_MARKER = some 0
    ∧ strFind "<!--START_PROJECTS_LIST-->old<!--END_PROJECTS_LIST-->".data END_MARKER = some 29
    ∧ (update_readme_content "NEW".data
        "<!--START_PROJECTS_LIST-->old<!--END_PROJECTS_LIST-->".data =
      some ("<!--START_PROJECTS_LIST-->old<!--END_PROJECTS_LIST-->".data.take 0
        ++ START_MARKER ++ "\n\n".data ++ "NEW".data ++ "\n\n".data
        ++ "<!--START_PROJECTS_LIST-->old<!--END_PROJECTS_LIST-->".data.drop 29)
      ∧ occursAt START_MARKER "<!--START_PROJECTS_LIST-->old<!--END_PROJECTS_LIST-->".data 0
      ∧ (∀ j, j < 0 →
          ¬ occursAt START_MARKER "<!--START_PROJECTS_LIST-->old<!--END_PROJECTS_LIST-->".data j)
      ∧ occursAt END_MARKER "<!--START_PROJECTS_LIST-->old<!--END_PROJECTS_LIST-->".data 29
      ∧ (∀ j, j < 29 →
          ¬ occursAt END_MARKER "<!--START_PROJECTS_LIST-->old<!--END_PROJECTS_LIST-->".data j)) :=
  ⟨by decide, by decide,
    update_readme_content_splice "NEW".data
      "<!--START_PROJECTS_LIST-->old<!--END_PROJECTS_LIST-->".data 0 29
      (by decide) (by decide)⟩

/-- C2: patching preserves every byte before the start marker and every byte
from the end marker onward. -/
theorem update_readme_content_frame (B c : List Char) (si ei : Nat)
    (hs : strFind c START_MARKER = some si) (he : strFind c END_MARKER = some ei)
    (horder : si < ei) :
    update_readme_content B c =
      some (c.take si ++ (START_MARKER ++ "\n\n".data ++ B ++ "\n\n".data) ++ c.drop ei)
    ∧ ∀ new, update_readme_content B c = some new →
        (c.take si).isPrefixOf new = true ∧ (c.drop ei).isSuffixOf new = true := by
  obtain ⟨hos, -⟩ := strFind_some c START_MARKER si hs
  have htk := take_of_occursAt c START_MARKER si hos
  have heq : update_readme_content B c =
      some (c.take si ++ (START_MARKER ++ "\n\n".data ++ B ++ "\n\n".data) ++ c.drop ei) := by
    simp [update_readme_content, hs, he, htk, List.append_assoc]
  refine ⟨heq, ?_⟩
  intro new hnew
  rw [heq, Option.some.injEq] at hnew
  constructor
  · rw [isPrefixOf_iff_exists]
    exact ⟨(START_MARKER ++ "\n\n".data ++ B ++ "\n\n".data) ++ c.drop ei, by
      rw [← hnew, List.append_assoc]⟩
  · rw [isSuffixOf_iff_exists]
    exact ⟨c.take si ++ (START_MARKER ++ "\n\n".data ++ B ++ "\n\n".data), hnew.symm⟩

/-- C2 witness: the frame theorem applied to a concrete README. -/
theorem update_readme_content_frame_witness :
    strFind "ab<!--START_PROJECTS_LIST-->old<!--END_PROJECTS_LIST-->yz".data START_MARKER = some 2
    ∧ strFind "ab<!--START_PROJECTS_LIST-->old<!--END_PROJECTS_LIST-->yz".data END_MARKER = some 31
    ∧ (2 : Nat) < 31
    ∧ (update_readme_content "NEW".data
        "ab<!--START_PROJECTS_LIST-->old<!--END_PROJECTS_LIST-->yz".data =
        some ("ab<!--START_PROJECTS_LIST-->old<!--END_PROJECTS_LIST-->yz".data.take 2
          ++ (START_MARKER ++ "\n\n".data ++ "NEW".data ++ "\n\n".data)
          ++ "ab<!--START_PROJECTS_LIST-->old<!--END_PROJECTS_LIST-->yz".data.drop 31)
      ∧ ∀ new, update_readme_content "NEW".data
          "ab<!--START_PROJECTS_LIST-->old<!--END_PROJECTS_LIST-->yz".data = some new →
          ("ab<!--START_PROJECTS_LIST-->old<!--END_PROJECTS_LIST-->yz".data.take 2).isPrefixOf
              new = true
          ∧ ("ab<!--START_PROJECTS_LIST-->old<!--END_PROJECTS_LIST-->yz".data.drop 31).isSuffixOf
              new = true) :=
  ⟨by decide, by decide, by decide,
    update_readme_content_frame "NEW".data
      "ab<!--START_PROJECTS_LIST-->old<!--END_PROJECTS_LIST-->yz".data 2 31
      (by decide) (by decide) (by decide)⟩

/-- C7: when either marker is absent from the content, the file on disk is
left unchanged (the function returns before any write). -/
theorem update_readme_no_write_when_marker_missing (B c : List Char)
    (h : (∀ j, ¬ occursAt START_MARKER c j) ∨ (∀ j, ¬ occursAt END_MARKER c j)) :
    update_readme B (some c) = some c := by
  rcases h with h | h
  · have hn : strFind c START_MARKER = none := (strFind_eq_none_iff c START_MARKER).mpr h
    simp [update_readme, update_readme_content, hn]
  · have hn : strFind c END_MARKER = none := (strFind_eq_none_iff c END_MARKER).mpr h
    cases hs : strFind c START_MARKER <;>
      simp [update_readme, update_readme_content, hs, hn]

/-- C7 witness: a README missing the end marker is left unchanged. -/
theorem update_readme_no_write_when_marker_missing_witness :
    strFind "<!--START_PROJECTS_LIST-->x".data END_MARKER = none
    ∧ update_readme "B".data (some "<!--START_PROJECTS_LIST-->x".data) =
        some "<!--START_PROJECTS_LIST-->x".data :=
  ⟨by decide,
    update_readme_no_write_when_marker_missing "B".data
      "<!--START_PROJECTS_LIST-->x".data
      (Or.inr ((strFind_eq_none_iff "<!--START_PROJECTS_LIST-->x".data END_MARKER).mp
        (by decide)))⟩

/-- C9: the two marker searches are independent; even when the first
occurrence of the end marker precedes the first occurrence of the start
marker, the patcher still constructs and writes the spliced content. -/
theorem update_readme_content_end_before_start (B c : List Char) (si ei : Nat)
    (hs : strFind c START_MARKER = some si) (he : strFind c END_MARKER = some ei)
    (hlt : ei < si) :
    update_readme_content B c =
      some (c.take (si + START_MARKER.length)
        ++ "\n\n".data ++ B ++ "\n\n".data ++ c.drop ei) := by
  simp [update_readme_content, hs, he]

/-- C9 witness: content whose end marker comes first is still spliced. -/
theorem update_readme_content_end_before_start_witness :
    strFind ("<!--END_PROJECTS_LIST--><!--START_PROJECTS_LIST-->".data) START_MARKER = some 24
    ∧ strFind ("<!--END_PROJECTS_LIST--><!--START_PROJECTS_LIST-->".data) END_MARKER = some 0
    ∧ (0 : Nat) < 24
    ∧ update_readme_content "x".data "<!--END_PROJECTS_LIST--><!--START_PROJECTS_LIST-->".data =
      some ("<!--END_PROJECTS_LIST--><!--START_PROJECTS_LIST-->".data.take
          (24 + START_MARKER.length)
        ++ "\n\n".data ++ "x".data ++ "\n\n".data
        ++ "<!--END_PROJECTS_LIST--><!--START_PROJECTS_LIST-->".data.drop 0) :=
  ⟨by decide, by decide, by decide,
    update_readme_content_end_before_start "x".data
      "<!--END_PROJECTS_LIST--><!--START_PROJECTS_LIST-->".data 24 0
      (by decide) (by decide) (by decide)⟩

/-- C8 counterexample: an existing but unreadable root README (a read
error other than `FileNotFoundError`), and a failing write after a
successful splice, both re-raise to the caller instead of being converted
into a degraded result or a no-op. -/
theorem no_error_propagation_counterexample :
    update_readme_ex "B".data ReadmeFile.unreadable false = Except.error ()
    ∧ update_readme_ex "B".data
        (ReadmeFile.readable
          "<!--START_PROJECTS_LIST--><!--END_PROJECTS_LIST-->".data) true =
      Except.error () :=
  ⟨rfl, rfl⟩

/-- C8 (amended): errors from the directory scan and from reading a
project README are always caught and degrade (empty project list, absent
description), and a missing root README — `FileNotFoundError`, the one
exception the Patcher handles — is caught as a logged no-op with no
write; but any other error while opening or reading the root README, and
any error while writing it, propagates to the caller. -/
theorem update_readme_error_paths (B : List Char) (fs : ProjectFS) (folder : List Char)
    (e : Unit) (c : List Char) (w : Bool) :
    get_project_folders (Except.error e) = []
    ∧ (fs folder = some (Except.error ()) → get_description fs folder = [])
    ∧ (fs folder = none → get_description fs folder = [])
    ∧ update_readme_ex B ReadmeFile.absent w = Except.ok none
    ∧ update_readme_ex B ReadmeFile.unreadable w = Except.error ()
    ∧ (update_readme_content B c = none →
        update_readme_ex B (ReadmeFile.readable c) w = Except.ok (some c))
    ∧ (∀ new, update_readme_content B c = some new →
        update_readme_ex B (ReadmeFile.readable c) w =
          if w then Except.error () else Except.ok (some new)) := by
  refine ⟨rfl, ?_, ?_, rfl, rfl, ?_, ?_⟩
  · intro h
    simp [get_description, h]
  · intro h
    simp [get_description, h]
  · intro h
    simp [update_readme_ex, h]
  · intro new h
    simp [update_readme_ex, h]

/-- C8 witness: the amended error-path behaviour at concrete inputs —
caught paths degrade, uncaught paths propagate. -/
theorem update_readme_error_paths_witness :
    get_project_folders (Except.error ()) = []
    ∧ get_description (fun x => some (Except.error ())) "p".data = []
    ∧ update_readme_ex "B".data ReadmeFile.absent false = Except.ok none
    ∧ update_readme_ex "B".data ReadmeFile.unreadable false = Except.error ()
    ∧ update_readme_ex "B".data (ReadmeFile.readable "no markers here".data) false =
        Except.ok (some "no markers here".data)
    ∧ update_readme_ex "B".data
        (ReadmeFile.readable
          "<!--START_PROJECTS_LIST--><!--END_PROJECTS_LIST-->".data) true =
      Except.error () := by
  obtain ⟨h1, h2, -, h4, h5, h6, -⟩ :=
    update_readme_error_paths "B".data (fun x => some (Except.error ())) "p".data ()
      "no markers here".data false
  obtain ⟨-, -, -, -, -, -, h7⟩ :=
    update_readme_error_paths "B".data (fun x => some (Except.error ())) "p".data ()
      "<!--START_PROJECTS_LIST--><!--END_PROJECTS_LIST-->".data true
  refine ⟨h1, h2 rfl, h4, h5, h6 (by decide), ?_⟩
  have h8 := h7
    "<!--START_PROJECTS_LIST-->\n\nB\n\n<!--END_PROJECTS_LIST-->".data (by decide)
  simpa using h8

/-- C4: the empty folder list formats to the literal no-projects sentence,
which is not a bullet list. -/
theorem format_projects_as_markdown_empty (fs : ProjectFS) :
    format_projects_as_markdown fs [] = "No projects found in this repository yet.".data
    ∧ List.isPrefixOf "* ".data (format_projects_as_markdown fs []) = false := by
  have h1 : format_projects_as_markdown fs [] =
      "No projects found in this repository yet.".data := rfl
  refine ⟨h1, ?_⟩
  rw [h1]
  decide

lemma lexLe_total (a b : List Char) : lexLe a b = true ∨ lexLe b a = true := by
  induction a generalizing b with
  | nil => left; rfl
  | cons x xs ih =>
    cases b with
    | nil => right; rfl
    | cons y ys =>
      by_cases h1 : x.toNat < y.toNat
      · left; simp [lexLe, h1]
      · by_cases h2 : y.toNat < x.toNat
        · right; simp [lexLe, h2]
        · rcases ih ys with h | h
          · left; simp [lexLe, h1, h2, h]
          · right; simp [lexLe, h1, h2, h]

lemma lexLe_trans (a b c : List Char) (hab : lexLe a b = true) (hbc : lexLe b c = true) :
    lexLe a c = true := by
  induction a generalizing b c with
  | nil => rfl
  | cons x xs ih =>
    cases b with
    | nil => simp [lexLe] at hab
    | cons y ys =>
      cases c with
      | nil => simp [lexLe] at hbc
      | cons z zs =>
        by_cases hxy : x.toNat < y.toNat
        · by_cases hyz : y.toNat < z.toNat
          · simp [lexLe, show x.toNat < z.toNat by omega]
          · by_cases hzy : z.toNat < y.toNat
            · simp [lexLe, hyz, hzy] at hbc
            · simp [lexLe, show x.toNat < z.toNat by omega]
        · by_cases hyx : y.toNat < x.toNat
          · simp [lexLe, hxy, hyx] at hab
          · by_cases hyz : y.toNat < z.toNat
            · simp [lexLe, show x.toNat < z.toNat by omega]
            · by_cases hzy : z.toNat < y.toNat
              · simp [lexLe, hyz, hzy] at hbc
              · have hab' : lexLe xs ys = true := by simpa [lexLe, hxy, hyx] using hab
                have hbc' : lexLe ys zs = true := by simpa [lexLe, hyz, hzy] using hbc
                have hxz : ¬ x.toNat < z.toNat := by omega
                have hzx : ¬ z.toNat < x.toNat := by omega
                simpa [lexLe, hxz, hzx] using ih ys zs hab' hbc'

instance lexLeIsTotal : IsTotal (List Char) (fun a b => lexLe a b = true) :=
  ⟨lexLe_total⟩

instance lexLeIsTrans : IsTrans (List Char) (fun a b => lexLe a b = true) :=
  ⟨lexLe_trans⟩

/-- C3: the Folder Scanner returns exactly the names of directory entries
not in the ignore set, in ascending lexicographic order, without
duplicates. -/
theorem get_project_folders_spec (items : List DirEntry)
    (hnd : (items.map DirEntry.name).Nodup) :
    (∀ n, n ∈ get_project_folders (Except.ok items) ↔
      ∃ e, e ∈ items ∧ e.name = n ∧ e.isDir = true ∧ n ∉ IGNORE_LIST)
    ∧ List.Pairwise (fun a b => lexLe a b = true) (get_project_folders (Except.ok items))
    ∧ (get_project_folders (Except.ok items)).Nodup := by
  have hdef : get_project_folders (Except.ok items) =
      List.insertionSort (fun a b => lexLe a b = true)
        ((items.filter
          (fun item => item.isDir && !(IGNORE_LIST.contains item.name))).map DirEntry.name) :=
    rfl
  have hperm := List.perm_insertionSort (fun a b : List Char => lexLe a b = true)
    ((items.filter
      (fun item => item.isDir && !(IGNORE_LIST.contains item.name))).map DirEntry.name)
  refine ⟨?_, ?_, ?_⟩
  · intro n
    rw [hdef, hperm.mem_iff, List.mem_map]
    constructor
    · rintro ⟨e, he, rfl⟩
      rw [List.mem_filter] at he
      obtain ⟨hmem, hcond⟩ := he
      simp only [Bool.and_eq_true, Bool.not_eq_true'] at hcond
      refine ⟨e, hmem, rfl, hcond.1, ?_⟩
      intro hin
      have : IGNORE_LIST.contains e.name = true := by
        simp only [List.contains_iff_exists_mem_beq]
        exact ⟨e.name, hin, by simp⟩
      rw [this] at hcond
      exact Bool.noConfusion hcond.2
    · rintro ⟨e, hmem, rfl, hdir, hnin⟩
      refine ⟨e, ?_, rfl⟩
      rw [List.mem_filter]
      refine ⟨hmem, ?_⟩
      simp only [Bool.and_eq_true, Bool.not_eq_true']
      refine ⟨hdir, ?_⟩
      by_contra hc
      rw [Bool.not_eq_false, List.contains_iff_exists_mem_beq] at hc
      obtain ⟨m, hm, hbeq⟩ := hc
      rw [beq_iff_eq] at hbeq
      exact hnin (hbeq ▸ hm)
  · rw [hdef]
    exact List.sorted_insertionSort (fun a b => lexLe a b = true) _
  · rw [hdef]
    refine hperm.nodup_iff.mpr ?_
    exact List.Nodup.sublist ((List.filter_sublist items).map DirEntry.name) hnd

/-- C3 witness: a concrete directory listing with ignored entries, a file,
and unsorted names. -/
theorem get_project_folders_spec_witness :
    (List.map DirEntry.name [⟨"zeta".data, true⟩, ⟨".git".data, true⟩,
        ⟨"alpha_proj".data, true⟩, ⟨"file.txt".data, false⟩, ⟨"Beta-x".data, true⟩]).Nodup
    ∧ ((∀ n, n ∈ get_project_folders (Except.ok [⟨"zeta".data, true⟩, ⟨".git".data, true⟩,
          ⟨"alpha_proj".data, true⟩, ⟨"file.txt".data, false⟩, ⟨"Beta-x".data, true⟩]) ↔
        ∃ e, e ∈ [⟨"zeta".data, true⟩, ⟨".git".data, true⟩, ⟨"alpha_proj".data, true⟩,
            ⟨"file.txt".data, false⟩, (⟨"Beta-x".data, true⟩ : DirEntry)]
          ∧ e.name = n ∧ e.isDir = true ∧ n ∉ IGNORE_LIST)
      ∧ List.Pairwise (fun a b => lexLe a b = true)
          (get_project_folders (Except.ok [⟨"zeta".data, true⟩, ⟨".git".data, true⟩,
            ⟨"alpha_proj".data, true⟩, ⟨"file.txt".data, false⟩, ⟨"Beta-x".data, true⟩]))
      ∧ (get_project_folders (Except.ok [⟨"zeta".data, true⟩, ⟨".git".data, true⟩,
          ⟨"alpha_proj".data, true⟩, ⟨"file.txt".data, false⟩,
          ⟨"Beta-x".data, true⟩])).Nodup) :=
  ⟨by decide,
    get_project_folders_spec
      [⟨"zeta".data, true⟩, ⟨".git".data, true⟩, ⟨"alpha_proj".data, true⟩,
        ⟨"file.txt".data, false⟩, ⟨"Beta-x".data, true⟩]
      (by decide)⟩

lemma intercalate_eq_flatten_cons (sep a : List Char) (l : List (List Char)) :
    List.intercalate sep (a :: l) = a ++ (l.map (fun g => sep ++ g)).flatten := by
  induction l generalizing a with
  | nil => simp [List.intercalate]
  | cons b bs ih =>
    have h1 : List.intercalate sep (a :: b :: bs) =
        a ++ (sep ++ (List.intersperse sep (b :: bs)).flatten) := by
      rw [List.intercalate, List.intersperse_cons_cons, List.flatten_cons, List.flatten_cons]
    have h2 : (List.intersperse sep (b :: bs)).flatten = List.intercalate sep (b :: bs) := rfl
    rw [h1, h2, ih b]
    simp [List.append_assoc]

lemma projectLine_eq_specProjectLine (fs : ProjectFS) (g : List Char) :
    projectLine fs g = specProjectLine fs g := by
  have hmap : replaceChar '-' ' ' (replaceChar '_' ' ' g) =
      g.map (fun c => if c = '_' || c = '-' then ' ' else c) := by
    simp only [replaceChar, List.map_map]
    congr 1
    funext c
    by_cases h1 : c = '_'
    · simp [h1]
    · by_cases h2 : c = '-' <;> simp [Function.comp, h1, h2]
  simp only [projectLine, specProjectLine, specDisplayName, hmap]
  rcases hd : get_description fs g with _ | ⟨c, cs⟩
  · simp
  · simp

/-- C5: a non-empty folder list formats to one bullet line per folder — the
spec's `* **[<DisplayName>](<link>)**` shape with the display name obtained
by replacing `_` and `-` with spaces and title-casing, the link `./<folder>/`,
and the description appended after `: ` when present — joined by exactly one
newline between consecutive lines and none at the end. -/
theorem format_projects_as_markdown_nonempty (fs : ProjectFS) (f : List Char)
    (rest : List (List Char)) :
    format_projects_as_markdown fs (f :: rest) =
      specProjectLine fs f ++ (rest.map (fun g => '\n' :: specProjectLine fs g)).flatten := by
  have hfmt : format_projects_as_markdown fs (f :: rest) =
      List.intercalate ['\n'] ((f :: rest).map (projectLine fs)) := by
    simp [format_projects_as_markdown]
  rw [hfmt, List.map_cons, intercalate_eq_flatten_cons]
  congr 1
  · exact projectLine_eq_specProjectLine fs f
  · simp only [List.map_map]
    have hfun : ((fun g => ['\n'] ++ g) ∘ projectLine fs) =
        (fun g => '\n' :: specProjectLine fs g) := by
      funext g
      simp [Function.comp, projectLine_eq_specProjectLine fs g]
    rw [hfun]

lemma findDescription_eq (lines : List (List Char)) :
    findDescription lines =
      ((lines.find? (fun line => !(pyStrip line).isEmpty
          && !(List.isPrefixOf ['#'] (pyStrip line)))).map pyStrip).getD [] := by
  induction lines with
  | nil => rfl
  | cons l rest ih =>
    by_cases h : (!(pyStrip l).isEmpty && !(List.isPrefixOf ['#'] (pyStrip l))) = true
    · simp [findDescription, List.find?_cons, h]
    · rw [Bool.not_eq_true] at h
      simp [findDescription, List.find?_cons, h, ih]

/-- C6: when the folder README is readable, the description is the stripped
first line that is non-empty after stripping and does not start with `#`
(absent when no line qualifies); a missing file or a read error yields an
absent description, with no propagated failure. -/
theorem get_description_spec (fs : ProjectFS) (folder : List Char) :
    (∀ lines, fs folder = some (Except.ok lines) →
        get_description fs folder =
          ((lines.find? (fun line => !(pyStrip line).isEmpty
              && !(List.isPrefixOf ['#'] (pyStrip line)))).map pyStrip).getD [])
    ∧ (fs folder = none → get_description fs folder = [])
    ∧ (∀ e, fs folder = some (Except.error e) → get_description fs folder = []) := by
  refine ⟨?_, ?_, ?_⟩
  · intro lines h
    simp [get_description, h, findDescription_eq]
  · intro h
    simp [get_description, h]
  · intro e h
    simp [get_description, h]

/-- C6 witness: the spec's example — `# Title`, a blank line, then
`A tool for X.` resolves to the description `A tool for X.`. -/
theorem get_description_spec_witness :
    get_description
      (fun f => if f = "proj".data
        then some (Except.ok ["# Title".data, "".data, "A tool for X.".data]) else none)
      "proj".data = "A tool for X.".data := by
  have h := (get_description_spec
    (fun f => if f = "proj".data
      then some (Except.ok ["# Title".data, "".data, "A tool for X.".data]) else none)
    "proj".data).1 ["# Title".data, "".data, "A tool for X.".data] (by simp)
  exact h.trans (by decide)

lemma getElem?_of_occursAt (pat s : List Char) (j : Nat) (h : occursAt pat s j)
    (k : Nat) (hk : k < pat.length) : s[j + k]? = pat[k]? := by
  obtain ⟨t, ht⟩ := h
  have h1 := List.getElem?_drop s j k
  rw [ht, List.getElem?_append_left hk] at h1
  exact h1.symm

lemma no_cross (pat A C : List Char) (c : Char) (hc : c ∉ pat) (j : Nat)
    (h : occursAt pat (A ++ c :: C) j) :
    j + pat.length ≤ A.length ∨ A.length + 1 ≤ j := by
  by_contra hcon
  push_neg at hcon
  obtain ⟨h1, h2⟩ := hcon
  have hk : A.length - j < pat.length := by omega
  have he := getElem?_of_occursAt pat (A ++ c :: C) j h (A.length - j) hk
  rw [show j + (A.length - j) = A.length by omega] at he
  have hA : (A ++ c :: C)[A.length]? = some c := by
    rw [List.getElem?_append_right (le_refl A.length)]
    simp
  rw [hA] at he
  exact hc (List.getElem?_mem he.symm)

lemma occursAt_cases_five (pat P B S : List Char) (hn : ('\n' : Char) ∉ pat)
    (hne : pat ≠ []) (j : Nat)
    (h : occursAt pat (P ++ '\n' :: '\n' :: (B ++ '\n' :: '\n' :: S)) j) :
    (j + pat.length ≤ P.length ∧ occursAt pat P j)
    ∨ (P.length + 2 ≤ j ∧ j + pat.length ≤ P.length + 2 + B.length
        ∧ occursAt pat B (j - (P.length + 2)))
    ∨ (P.length + B.length + 4 ≤ j
        ∧ occursAt pat S (j - (P.length + B.length + 4))) := by
  have hplen : 1 ≤ pat.length := by
    cases pat with
    | nil => exact absurd rfl hne
    | cons a l => simp
  have hb1 := no_cross pat P ('\n' :: (B ++ '\n' :: '\n' :: S)) '\n' hn j h
  have h2' : occursAt pat ((P ++ ['\n']) ++ '\n' :: (B ++ '\n' :: '\n' :: S)) j := by
    have heq : (P ++ ['\n']) ++ '\n' :: (B ++ '\n' :: '\n' :: S) =
        P ++ '\n' :: '\n' :: (B ++ '\n' :: '\n' :: S) := by simp
    rw [heq]
    exact h
  have hb2 := no_cross pat (P ++ ['\n']) (B ++ '\n' :: '\n' :: S) '\n' hn j h2'
  rw [List.length_append] at hb2
  have h3' : occursAt pat ((P ++ '\n' :: '\n' :: B) ++ '\n' :: ('\n' :: S)) j := by
    have heq : (P ++ '\n' :: '\n' :: B) ++ '\n' :: ('\n' :: S) =
        P ++ '\n' :: '\n' :: (B ++ '\n' :: '\n' :: S) := by simp
    rw [heq]
    exact h
  have hb3 := no_cross pat (P ++ '\n' :: '\n' :: B) ('\n' :: S) '\n' hn j h3'
  rw [List.length_append, List.length_cons, List.length_cons] at hb3
  have h4' : occursAt pat ((P ++ '\n' :: '\n' :: (B ++ ['\n'])) ++ '\n' :: S) j := by
    have heq : (P ++ '\n' :: '\n' :: (B ++ ['\n'])) ++ '\n' :: S =
        P ++ '\n' :: '\n' :: (B ++ '\n' :: '\n' :: S) := by simp
    rw [heq]
    exact h
  have hb4 := no_cross pat (P ++ '\n' :: '\n' :: (B ++ ['\n'])) S '\n' hn j h4'
  rw [List.length_append, List.length_cons, List.length_cons, List.length_append] at hb4
  simp only [List.length_singleton] at hb2 hb4
  rcases hb1 with hc1 | hc1
  · left
    exact ⟨hc1, occursAt_left_of_fit pat P ('\n' :: '\n' :: (B ++ '\n' :: '\n' :: S)) j hc1 h⟩
  · rcases hb2 with hc2 | hc2
    · omega
    · rcases hb4 with hc4 | hc4
      · right; left
        have hc3 : j + pat.length ≤ P.length + 2 + B.length := by
          rcases hb3 with hx | hx
          · omega
          · omega
        refine ⟨by omega, hc3, ?_⟩
        have hsplit : occursAt pat ((P ++ ['\n', '\n']) ++ (B ++ '\n' :: '\n' :: S)) j := by
          have heq : (P ++ ['\n', '\n']) ++ (B ++ '\n' :: '\n' :: S) =
              P ++ '\n' :: '\n' :: (B ++ '\n' :: '\n' :: S) := by simp
          rw [heq]
          exact h
        have hj' : j = (P ++ ['\n', '\n']).length + (j - (P.length + 2)) := by
          simp only [List.length_append, List.length_cons, List.length_nil]
          omega
        rw [hj'] at hsplit
        have hrest := occursAt_unshift pat (P ++ ['\n', '\n']) (B ++ '\n' :: '\n' :: S)
          (j - (P.length + 2)) hsplit
        exact occursAt_left_of_fit pat B ('\n' :: '\n' :: S) (j - (P.length + 2))
          (by omega) hrest
      · right; right
        refine ⟨by omega, ?_⟩
        have hsplit : occursAt pat
            ((P ++ '\n' :: '\n' :: (B ++ ['\n', '\n'])) ++ S) j := by
          have heq : (P ++ '\n' :: '\n' :: (B ++ ['\n', '\n'])) ++ S =
              P ++ '\n' :: '\n' :: (B ++ '\n' :: '\n' :: S) := by simp
          rw [heq]
          exact h
        have hj' : j = (P ++ '\n' :: '\n' :: (B ++ ['\n', '\n'])).length
            + (j - (P.length + B.length + 4)) := by
          simp only [List.length_append, List.length_cons, List.length_nil]
          omega
        rw [hj'] at hsplit
        exact occursAt_unshift pat (P ++ '\n' :: '\n' :: (B ++ ['\n', '\n'])) S
          (j - (P.length + B.length + 4)) hsplit

/-- C10 counterexample: a README containing both markers, with the end
marker before the start marker: the patch succeeds (a write happens), yet
an immediately repeated run with the same block yields different content. -/
theorem update_readme_patch_not_idempotent :
    (update_readme_content "x".data
        "<!--END_PROJECTS_LIST--><!--START_PROJECTS_LIST-->".data).isSome = true
    ∧ (update_readme_content "x".data
          "<!--END_PROJECTS_LIST--><!--START_PROJECTS_LIST-->".data).bind
        (update_readme_content "x".data)
      ≠ update_readme_content "x".data
          "<!--END_PROJECTS_LIST--><!--START_PROJECTS_LIST-->".data :=
  ⟨by decide, by decide⟩

/-- C10 (amended): a successful patch keeps both markers — the start marker
at its old position and the end marker right after the inserted block —
and, provided the start marker's first occurrence ends at or before the end
marker's first occurrence and the block does not contain the end marker, an
immediately repeated run with the same block reproduces the same content. -/
theorem update_readme_patch_idempotent (B c : List Char) (si ei : Nat)
    (hs : strFind c START_MARKER = some si) (he : strFind c END_MARKER = some ei)
    (horder : si + START_MARKER.length ≤ ei)
    (hBe : strFind B END_MARKER = none) :
    (∀ new, update_readme_content B c = some new →
      occursAt START_MARKER new si
      ∧ occursAt END_MARKER new (si + START_MARKER.length + 2 + B.length + 2))
    ∧ (update_readme_content B c).bind (update_readme_content B) =
        update_readme_content B c := by
  obtain ⟨hos, hmins⟩ := strFind_some c START_MARKER si hs
  obtain ⟨hoe, hmine⟩ := strFind_some c END_MARKER ei he
  have hSMne : START_MARKER ≠ [] := by decide
  have hEMne : END_MARKER ≠ [] := by decide
  have hSMnl : ('\n' : Char) ∉ START_MARKER := by decide
  have hEMnl : ('\n' : Char) ∉ END_MARKER := by decide
  have hSMlen : START_MARKER.length = 26 := by decide
  have hEMlen : END_MARKER.length = 24 := by decide
  have hbound := occursAt_bound START_MARKER c si hSMne hos
  have hPtake : c.take (si + START_MARKER.length) = c.take si ++ START_MARKER :=
    take_of_occursAt c START_MARKER si hos
  have htlen : (c.take si).length = si := by
    rw [List.length_take]
    omega
  have hPlen : (c.take si ++ START_MARKER).length = si + START_MARKER.length := by
    rw [List.length_append, htlen]
  have h0 : update_readme_content B c =
      some (c.take (si + START_MARKER.length)
        ++ "\n\n".data ++ B ++ "\n\n".data ++ c.drop ei) := by
    simp [update_readme_content, hs, he]
  have hform : c.take (si + START_MARKER.length)
        ++ "\n\n".data ++ B ++ "\n\n".data ++ c.drop ei
      = (c.take si ++ START_MARKER)
        ++ '\n' :: '\n' :: (B ++ '\n' :: '\n' :: c.drop ei) := by
    rw [hPtake]
    simp [List.append_assoc]
  have heq : update_readme_content B c =
      some ((c.take si ++ START_MARKER)
        ++ '\n' :: '\n' :: (B ++ '\n' :: '\n' :: c.drop ei)) := by
    rw [h0, hform]
  have hoccS : occursAt START_MARKER
      ((c.take si ++ START_MARKER) ++ '\n' :: '\n' :: (B ++ '\n' :: '\n' :: c.drop ei))
      si := by
    refine ⟨'\n' :: '\n' :: (B ++ '\n' :: '\n' :: c.drop ei), ?_⟩
    have hre : (c.take si ++ START_MARKER) ++ '\n' :: '\n' :: (B ++ '\n' :: '\n' :: c.drop ei)
        = c.take si ++ (START_MARKER ++ '\n' :: '\n' :: (B ++ '\n' :: '\n' :: c.drop ei)) := by
      simp [List.append_assoc]
    rw [hre, List.drop_left' htlen]
  have hminS : ∀ j, j < si → ¬ occursAt START_MARKER
      ((c.take si ++ START_MARKER) ++ '\n' :: '\n' :: (B ++ '\n' :: '\n' :: c.drop ei)) j := by
    intro j hj hocc
    rcases occursAt_cases_five START_MARKER (c.take si ++ START_MARKER) B (c.drop ei)
        hSMnl hSMne j hocc with ⟨hfit, hPocc⟩ | ⟨hge, -, -⟩ | ⟨hge, -⟩
    · have hxc : occursAt START_MARKER c j := by
        have hx : occursAt START_MARKER (c.take (si + START_MARKER.length)) j := by
          rw [hPtake]
          exact hPocc
        have hy := occursAt_mono_append START_MARKER (c.take (si + START_MARKER.length))
          (c.drop (si + START_MARKER.length)) j hx
        rwa [List.take_append_drop] at hy
      exact hmins j hj hxc
    · rw [hPlen] at hge
      omega
    · rw [hPlen] at hge
      omega
  have hfindS : strFind
      ((c.take si ++ START_MARKER) ++ '\n' :: '\n' :: (B ++ '\n' :: '\n' :: c.drop ei))
      START_MARKER = some si :=
    (strFind_eq_some_iff _ _ _).mpr ⟨hoccS, hminS⟩
  have hoccE : occursAt END_MARKER
      ((c.take si ++ START_MARKER) ++ '\n' :: '\n' :: (B ++ '\n' :: '\n' :: c.drop ei))
      (si + START_MARKER.length + 2 + B.length + 2) := by
    have hocc0 : occursAt END_MARKER (c.drop ei) 0 := by
      obtain ⟨tE, htE⟩ := hoe
      exact ⟨tE, by simpa using htE⟩
    have hsh := occursAt_shift END_MARKER
      ((c.take si ++ START_MARKER) ++ '\n' :: '\n' :: (B ++ ['\n', '\n'])) (c.drop ei) 0 hocc0
    have hre : ((c.take si ++ START_MARKER) ++ '\n' :: '\n' :: (B ++ ['\n', '\n'])) ++ c.drop ei
        = (c.take si ++ START_MARKER) ++ '\n' :: '\n' :: (B ++ '\n' :: '\n' :: c.drop ei) := by
      simp [List.append_assoc]
    rw [hre] at hsh
    have hlen : ((c.take si ++ START_MARKER) ++ '\n' :: '\n' :: (B ++ ['\n', '\n'])).length + 0
        = si + START_MARKER.length + 2 + B.length + 2 := by
      simp only [List.length_append, List.length_cons, List.length_nil, htlen]
      omega
    rwa [hlen] at hsh
  have hminE : ∀ j, j < si + START_MARKER.length + 2 + B.length + 2 → ¬ occursAt END_MARKER
      ((c.take si ++ START_MARKER) ++ '\n' :: '\n' :: (B ++ '\n' :: '\n' :: c.drop ei)) j := by
    intro j hj hocc
    rcases occursAt_cases_five END_MARKER (c.take si ++ START_MARKER) B (c.drop ei)
        hEMnl hEMne j hocc with ⟨hfit, hPocc⟩ | ⟨-, -, hBocc⟩ | ⟨hge, -⟩
    · have hxc : occursAt END_MARKER c j := by
        have hx : occursAt END_MARKER (c.take (si + START_MARKER.length)) j := by
          rw [hPtake]
          exact hPocc
        have hy := occursAt_mono_append END_MARKER (c.take (si + START_MARKER.length))
          (c.drop (si + START_MARKER.length)) j hx
        rwa [List.take_append_drop] at hy
      rw [hPlen] at hfit
      exact hmine j (by omega) hxc
    · exact (strFind_eq_none_iff B END_MARKER).mp hBe _ hBocc
    · rw [hPlen] at hge
      omega
  have hfindE : strFind
      ((c.take si ++ START_MARKER) ++ '\n' :: '\n' :: (B ++ '\n' :: '\n' :: c.drop ei))
      END_MARKER = some (si + START_MARKER.length + 2 + B.length + 2) :=
    (strFind_eq_some_iff _ _ _).mpr ⟨hoccE, hminE⟩
  have htk : ((c.take si ++ START_MARKER)
        ++ '\n' :: '\n' :: (B ++ '\n' :: '\n' :: c.drop ei)).take (si + START_MARKER.length)
      = c.take si ++ START_MARKER := List.take_left' hPlen
  have hdlen : ((c.take si ++ START_MARKER) ++ '\n' :: '\n' :: (B ++ ['\n', '\n'])).length
      = si + START_MARKER.length + 2 + B.length + 2 := by
    simp only [List.length_append, List.length_cons, List.length_nil, htlen]
    omega
  have hdr : ((c.take si ++ START_MARKER)
        ++ '\n' :: '\n' :: (B ++ '\n' :: '\n' :: c.drop ei)).drop
        (si + START_MARKER.length + 2 + B.length + 2)
      = c.drop ei := by
    have hre : (c.take si ++ START_MARKER) ++ '\n' :: '\n' :: (B ++ '\n' :: '\n' :: c.drop ei)
        = ((c.take si ++ START_MARKER) ++ '\n' :: '\n' :: (B ++ ['\n', '\n'])) ++ c.drop ei := by
      simp [List.append_assoc]
    rw [hre, List.drop_left' hdlen]
  have hsecond : update_readme_content B
      ((c.take si ++ START_MARKER) ++ '\n' :: '\n' :: (B ++ '\n' :: '\n' :: c.drop ei)) =
      some ((c.take si ++ START_MARKER) ++ '\n' :: '\n' :: (B ++ '\n' :: '\n' :: c.drop ei)) := by
    have h1 : update_readme_content B
        ((c.take si ++ START_MARKER) ++ '\n' :: '\n' :: (B ++ '\n' :: '\n' :: c.drop ei)) =
        some (((c.take si ++ START_MARKER)
            ++ '\n' :: '\n' :: (B ++ '\n' :: '\n' :: c.drop ei)).take (si + START_MARKER.length)
          ++ "\n\n".data ++ B ++ "\n\n".data
          ++ ((c.take si ++ START_MARKER)
            ++ '\n' :: '\n' :: (B ++ '\n' :: '\n' :: c.drop ei)).drop
            (si + START_MARKER.length + 2 + B.length + 2)) := by
      unfold update_readme_content
      rw [hfindS, hfindE]
    rw [h1, htk, hdr]
    exact congrArg some (by simp [List.append_assoc])
  constructor
  · intro new hnew
    rw [heq, Option.some.injEq] at hnew
    rw [← hnew]
    exact ⟨hoccS, hoccE⟩
  · rw [heq]
    exact hsecond

/-- C10 witness: the amended idempotence at a concrete README and block. -/
theorem update_readme_patch_idempotent_witness :
    (strFind "<!--START_PROJECTS_LIST-->old<!--END_PROJECTS_LIST-->".data START_MARKER = some 0
      ∧ strFind "<!--START_PROJECTS_LIST-->old<!--END_PROJECTS_LIST-->".data END_MARKER = some 29
      ∧ 0 + START_MARKER.length ≤ 29
      ∧ strFind "NEW".data END_MARKER = none)
    ∧ ((∀ new, update_readme_content "NEW".data
          "<!--START_PROJECTS_LIST-->old<!--END_PROJECTS_LIST-->".data = some new →
        occursAt START_MARKER new 0
        ∧ occursAt END_MARKER new (0 + START_MARKER.length + 2 + "NEW".data.length + 2))
      ∧ (update_readme_content "NEW".data
            "<!--START_PROJECTS_LIST-->old<!--END_PROJECTS_LIST-->".data).bind
          (update_readme_content "NEW".data) =
        update_readme_content "NEW".data
          "<!--START_PROJECTS_LIST-->old<!--END_PROJECTS_LIST-->".data) :=
  ⟨⟨by decide, by decide, by decide, by decide⟩,
    update_readme_patch_idempotent "NEW".data
      "<!--START_PROJECTS_LIST-->old<!--END_PROJECTS_LIST-->".data 0 29
      (by decide) (by decide) (by decide) (by decide)⟩
